import Mathlib

/-!
Verification of the lsd transaction client (`pytpcc/drivers/lsddriver.py`)
and the benchmark bookkeeping (`pytpcc/util/results.py`).

The Python source is shallowly embedded: the mutable `client` object becomes
an explicit `ClientState` record threaded through the operations, the
memcached store becomes a function parameter giving the reply to each
request, Python `assert` failures become `Except.error`, and Python's
dynamically typed values returned by the future resolver become the
`PyVal` sum type.  Machine integers do not occur (Python ints are
unbounded); timestamps are modelled as abstract `Nat` ticks.
-/

namespace LsdDriver

/-! ### Decimal rendering of the transaction counter

`begin` renders the transaction counter with `'{}-{}'.format(counter, uuid)`,
i.e. the decimal rendering of a Python int.  `natDigits` is that decimal
rendering; `valOfDigits` is the parse used to state that the sequence
number is recoverable from the id string. -/

/-- Decimal digit character for `d % 10`, as Python's `str` renders it. -/
def digitChr (d : Nat) : Char :=
  match d with
  | 0 => '0' | 1 => '1' | 2 => '2' | 3 => '3' | 4 => '4'
  | 5 => '5' | 6 => '6' | 7 => '7' | 8 => '8' | _ => '9'

/-- Decimal rendering worker; `fuel` bounds the digit count so the recursion
is structural (and therefore kernel-computable). -/
def natDigitsAux : Nat → Nat → List Char
  | 0, _ => []
  | fuel + 1, n =>
    if n < 10 then [digitChr n]
    else natDigitsAux fuel (n / 10) ++ [digitChr (n % 10)]

/-- Decimal rendering of a natural number, most significant digit first
(`n + 1` digits of fuel always suffice). -/
def natDigits (n : Nat) : List Char :=
  natDigitsAux (n + 1) n

/-- Parse a digit string back to a number (inverse of `natDigits`). -/
def valOfDigits (l : List Char) : Nat :=
  l.foldl (fun a c => a * 10 + (c.toNat - 48)) 0

/-- Decimal rendering as a `String` (Python `'{}'.format(n)` for a non-negative int). -/
def natStr (n : Nat) : String :=
  ⟨natDigits n⟩

/-- Transaction id as built by `client.begin`:
`'{}-{}'.format(self._transaction_counter, self._id)`. -/
def mkTxId (counter : Nat) (uuid : String) : String :=
  natStr counter ++ "-" ++ uuid

/-- Sequence number embedded in a transaction id string: the decimal prefix
before the first separator.  Statement-side parse used to express claims
about the embedded sequence number. -/
def seqOfTxId (id : String) : Nat :=
  valOfDigits (id.data.takeWhile (fun c => c ≠ '-'))

/-! ### KeyCodec (`LsdDriver.__w_key` .. `LsdDriver.__s_key`)

Each Python function renders a `'{tag}-{ids}-{field}'` format string; the
embedding writes out the concatenation that `str.format` performs.  Id
fields appear in the rendered form the caller passes (the driver passes
decimal ints and plain strings), so they are modelled as strings. -/

def w_key (w_id field : String) : String :=
  "w-" ++ w_id ++ "-" ++ field

def d_key (d_id d_w_id field : String) : String :=
  "d-" ++ d_id ++ "_" ++ d_w_id ++ "-" ++ field

def c_key (c_id c_d_id c_w_id field : String) : String :=
  "c-" ++ c_id ++ "_" ++ c_d_id ++ "_" ++ c_w_id ++ "-" ++ field

def c_index_key (c_d_id c_w_id c_last : String) : String :=
  "ci-" ++ c_d_id ++ "_" ++ c_w_id ++ "_" ++ c_last

def h_key (h_uuid h_c_id h_c_w_id h_w_id field : String) : String :=
  "h-" ++ h_uuid ++ "_" ++ h_c_id ++ "_" ++ h_c_w_id ++ "_" ++ h_w_id ++ "-" ++ field

def no_key (no_o_id no_d_id no_w_id field : String) : String :=
  "no-" ++ no_o_id ++ "_" ++ no_d_id ++ "_" ++ no_w_id ++ "-" ++ field

def no_index_key (no_d_id no_w_id : String) : String :=
  "noi-" ++ no_d_id ++ "_" ++ no_w_id

def o_key (o_id o_d_id o_w_id field : String) : String :=
  "o-" ++ o_id ++ "_" ++ o_d_id ++ "_" ++ o_w_id ++ "-" ++ field

def o_index_key (o_d_id o_w_id o_c_id : String) : String :=
  "oi-" ++ o_d_id ++ "_" ++ o_w_id ++ "_" ++ o_c_id

def ol_key (ol_number ol_o_id ol_d_id ol_w_id field : String) : String :=
  "ol-" ++ ol_number ++ "_" ++ ol_o_id ++ "_" ++ ol_d_id ++ "_" ++ ol_w_id ++ "-" ++ field

def i_key (i_id field : String) : String :=
  "i-" ++ i_id ++ "-" ++ field

def s_key (s_i_id s_w_id field : String) : String :=
  "s-" ++ s_i_id ++ "_" ++ s_w_id ++ "-" ++ field

/-- Logical record / index-entry address: one constructor per key family. -/
inductive LogicalKey
  | warehouse (w_id field : String)
  | district (d_id d_w_id field : String)
  | customer (c_id c_d_id c_w_id field : String)
  | customerIndex (c_d_id c_w_id c_last : String)
  | history (h_uuid h_c_id h_c_w_id h_w_id field : String)
  | newOrder (no_o_id no_d_id no_w_id field : String)
  | newOrderIndex (no_d_id no_w_id : String)
  | order (o_id o_d_id o_w_id field : String)
  | orderIndex (o_d_id o_w_id o_c_id : String)
  | orderLine (ol_number ol_o_id ol_d_id ol_w_id field : String)
  | item (i_id field : String)
  | stock (s_i_id s_w_id field : String)
deriving DecidableEq

/-- Dispatch a logical key to the matching Python key-encoding function. -/
def encodeKey : LogicalKey → String
  | .warehouse w f => w_key w f
  | .district d w f => d_key d w f
  | .customer c d w f => c_key c d w f
  | .customerIndex d w l => c_index_key d w l
  | .history u c cw w f => h_key u c cw w f
  | .newOrder o d w f => no_key o d w f
  | .newOrderIndex d w => no_index_key d w
  | .order o d w f => o_key o d w f
  | .orderIndex d w c => o_index_key d w c
  | .orderLine n o d w f => ol_key n o d w f
  | .item i f => i_key i f
  | .stock i w f => s_key i w f

/-- Each rendered field avoids the two delimiter characters of the codec. -/
def CleanStr (s : String) : Prop :=
  '-' ∉ s.data ∧ '_' ∉ s.data

/-- All fields of the logical key are delimiter-free. -/
def CleanKey : LogicalKey → Prop
  | .warehouse w f => CleanStr w ∧ CleanStr f
  | .district d w f => CleanStr d ∧ CleanStr w ∧ CleanStr f
  | .customer c d w f => CleanStr c ∧ CleanStr d ∧ CleanStr w ∧ CleanStr f
  | .customerIndex d w l => CleanStr d ∧ CleanStr w ∧ CleanStr l
  | .history u c cw w f => CleanStr u ∧ CleanStr c ∧ CleanStr cw ∧ CleanStr w ∧ CleanStr f
  | .newOrder o d w f => CleanStr o ∧ CleanStr d ∧ CleanStr w ∧ CleanStr f
  | .newOrderIndex d w => CleanStr d ∧ CleanStr w
  | .order o d w f => CleanStr o ∧ CleanStr d ∧ CleanStr w ∧ CleanStr f
  | .orderIndex d w c => CleanStr d ∧ CleanStr w ∧ CleanStr c
  | .orderLine n o d w f => CleanStr n ∧ CleanStr o ∧ CleanStr d ∧ CleanStr w ∧ CleanStr f
  | .item i f => CleanStr i ∧ CleanStr f
  | .stock i w f => CleanStr i ∧ CleanStr w ∧ CleanStr f

/-- Table tag of a key family: the characters before the first `-`. -/
def tagOf : LogicalKey → List Char
  | .warehouse .. => ['w']
  | .district .. => ['d']
  | .customer .. => ['c']
  | .customerIndex .. => ['c', 'i']
  | .history .. => ['h']
  | .newOrder .. => ['n', 'o']
  | .newOrderIndex .. => ['n', 'o', 'i']
  | .order .. => ['o']
  | .orderIndex .. => ['o', 'i']
  | .orderLine .. => ['o', 'l']
  | .item .. => ['i']
  | .stock .. => ['s']

/-- Body of an encoded key: everything after the tag and its `-`. -/
def bodyOf : LogicalKey → List Char
  | .warehouse w f => w.data ++ '-' :: f.data
  | .district d w f => d.data ++ '_' :: w.data ++ '-' :: f.data
  | .customer c d w f => c.data ++ '_' :: d.data ++ '_' :: w.data ++ '-' :: f.data
  | .customerIndex d w l => d.data ++ '_' :: w.data ++ '_' :: l.data
  | .history u c cw w f =>
      u.data ++ '_' :: c.data ++ '_' :: cw.data ++ '_' :: w.data ++ '-' :: f.data
  | .newOrder o d w f => o.data ++ '_' :: d.data ++ '_' :: w.data ++ '-' :: f.data
  | .newOrderIndex d w => d.data ++ '_' :: w.data
  | .order o d w f => o.data ++ '_' :: d.data ++ '_' :: w.data ++ '-' :: f.data
  | .orderIndex d w c => d.data ++ '_' :: w.data ++ '_' :: c.data
  | .orderLine n o d w f =>
      n.data ++ '_' :: o.data ++ '_' :: d.data ++ '_' :: w.data ++ '-' :: f.data
  | .item i f => i.data ++ '-' :: f.data
  | .stock i w f => i.data ++ '_' :: w.data ++ '-' :: f.data

/-! ### Future graph (the future-ops table installed in `client.__init__`)

The opcode enum, node messages and per-opcode resolver functions embed the
`read_op` .. `none_op` definitions of the source (the future-ops variant of
the client, quoted in `client.__init__`).  Proto messages are records whose
unset fields hold the proto defaults; mutation of a node becomes `List.set`
on the future set.  Python's dynamically typed results (`str`, `bool`,
`None`) become `PyVal`. -/

inductive FType
  | READ | POINTER | ADD_FI | ADD_FD | SUB_FI | SUB_FD | MUL_FD
  | CONCAT_FS | CONCAT_SF | TRUNC_FI | GTEQ_FI | EXISTS | SUBSTR_FS | NONE
deriving DecidableEq

/-- The `rdata` message of a READ node, with its nested `data` fields inlined. -/
structure RDataMsg where
  resolved : Bool := false
  key : String := ""
  existed : Bool := false
  value : String := ""
deriving DecidableEq

/-- An operand slot: either an `index` of another future or a literal `value`
(proto keeps both fields; the builder sets exactly one, the other stays at
its default). -/
structure FParam where
  index : Nat := 0
  value : String := ""
deriving DecidableEq

structure BinOpMsg where
  resolved : Bool := false
  value : String := ""
  left_param : FParam := {}
  right_param : FParam := {}
deriving DecidableEq

structure UnOpMsg where
  resolved : Bool := false
  value : String := ""
  param : FParam := {}
deriving DecidableEq

structure FNode where
  ftype : FType := .NONE
  rdata : RDataMsg := {}
  binary_op : BinOpMsg := {}
  unary_op : UnOpMsg := {}
deriving DecidableEq

/-- A dynamically typed Python value as returned by the resolver functions. -/
inductive PyVal
  | vstr (s : String)
  | vbool (b : Bool)
  | vnone
deriving DecidableEq

/-- Python `str` of a bool. -/
def pyBoolStr (b : Bool) : String :=
  if b then "True" else "False"

/-- Python `int(x)` on a resolver result: parses a decimal string, converts a
bool, raises (`error`) on `None` or a non-numeric string. -/
def pyInt : PyVal → Except Unit Int
  | .vstr s => match s.toInt? with
    | some n => .ok n
    | Option.none => .error ()
  | .vbool b => .ok (if b then 1 else 0)
  | .vnone => .error ()

/-- Python `s[:n]` (clamps, and counts from the end when `n` is negative). -/
def pySlice (s : String) (n : Int) : String :=
  if 0 ≤ n then ⟨s.data.take n.toNat⟩
  else ⟨s.data.take (s.data.length - (-n).toNat)⟩

/-- Python `left + right` where `left` came from a resolver and `right` is a
string literal; raises unless `left` is a string. -/
def pyConcatFS : PyVal → String → Except Unit String
  | .vstr s, r => .ok (s ++ r)
  | _, _ => .error ()

/-- Python `left + right` where `left` is a string literal and `right` came
from a resolver; raises unless `right` is a string. -/
def pyConcatSF : String → PyVal → Except Unit String
  | l, .vstr s => .ok (l ++ s)
  | _, _ => .error ()

/-- Semantics of the three binary64 branches
(`str(float(l) + float(r))` and friends).  IEEE-754 arithmetic is outside
the embedding, so the resolver is parameterized by it; no claim depends on
its value. -/
abbrev FloatSem := FType → PyVal → String → Except Unit String

/-- The recursive resolver: dispatch of `client._resolve` through the
`_future_ops` table, by node index, threading the mutated future set.
`fuel` bounds the recursion depth (operand indices always point backward in
the source's append-only future set, but the raw data does not guarantee
it); running out of fuel is an error.  `transient`/`env` are as in the
source; assertion failures and `IndexError`/`TypeError` are `error`. -/
def resolve (flt : FloatSem) (env : String → Option (Bool × String))
    (transient : Bool) : Nat → List FNode → Nat → Except Unit (PyVal × List FNode)
  | 0, _, _ => .error ()
  | fuel + 1, fset, i =>
    match fset[i]? with
    | Option.none => .error ()
    | some f =>
      match f.ftype with
      | .READ =>
        if f.rdata.resolved then
          .ok (if f.rdata.existed then .vstr f.rdata.value else .vnone, fset)
        else if !transient then .error ()
        else
          match env f.rdata.key with
          | Option.none => .error ()
          | some (ex, v) =>
            let f' := { f with rdata :=
              { f.rdata with existed := ex, value := v, resolved := !transient } }
            .ok (if ex then .vstr v else .vnone, fset.set i f')
      | .ADD_FI =>
        if f.binary_op.resolved then .ok (.vstr f.binary_op.value, fset)
        else
          match resolve flt env transient fuel fset f.binary_op.left_param.index with
          | .error e => .error e
          | .ok (leftRes, fset1) =>
            match pyInt leftRes, pyInt (.vstr f.binary_op.right_param.value) with
            | .ok a, .ok b =>
              match fset1[i]? with
              | Option.none => .error ()
              | some cur =>
                let v := toString (a + b)
                .ok (.vstr v, fset1.set i { cur with binary_op :=
                  { cur.binary_op with value := v, resolved := !transient } })
            | _, _ => .error ()
      | .SUB_FI =>
        if f.binary_op.resolved then .ok (.vstr f.binary_op.value, fset)
        else
          match resolve flt env transient fuel fset f.binary_op.left_param.index with
          | .error e => .error e
          | .ok (leftRes, fset1) =>
            match pyInt leftRes, pyInt (.vstr f.binary_op.right_param.value) with
            | .ok a, .ok b =>
              match fset1[i]? with
              | Option.none => .error ()
              | some cur =>
                let v := toString (a - b)
                .ok (.vstr v, fset1.set i { cur with binary_op :=
                  { cur.binary_op with value := v, resolved := !transient } })
            | _, _ => .error ()
      | .ADD_FD | .SUB_FD | .MUL_FD =>
        if f.binary_op.resolved then .ok (.vstr f.binary_op.value, fset)
        else
          match resolve flt env transient fuel fset f.binary_op.left_param.index with
          | .error e => .error e
          | .ok (leftRes, fset1) =>
            match flt f.ftype leftRes f.binary_op.right_param.value with
            | .error e => .error e
            | .ok v =>
              match fset1[i]? with
              | Option.none => .error ()
              | some cur =>
                .ok (.vstr v, fset1.set i { cur with binary_op :=
                  { cur.binary_op with value := v, resolved := !transient } })
      | .CONCAT_FS =>
        if f.binary_op.resolved then .ok (.vstr f.binary_op.value, fset)
        else
          match resolve flt env transient fuel fset f.binary_op.left_param.index with
          | .error e => .error e
          | .ok (leftRes, fset1) =>
            match pyConcatFS leftRes f.binary_op.right_param.value with
            | .error e => .error e
            | .ok v =>
              match fset1[i]? with
              | Option.none => .error ()
              | some cur =>
                .ok (.vstr v, fset1.set i { cur with binary_op :=
                  { cur.binary_op with value := v, resolved := !transient } })
      | .CONCAT_SF =>
        if f.binary_op.resolved then .ok (.vstr f.binary_op.value, fset)
        else
          match resolve flt env transient fuel fset f.binary_op.right_param.index with
          | .error e => .error e
          | .ok (rightRes, fset1) =>
            match pyConcatSF f.binary_op.left_param.value rightRes with
            | .error e => .error e
            | .ok v =>
              match fset1[i]? with
              | Option.none => .error ()
              | some cur =>
                .ok (.vstr v, fset1.set i { cur with binary_op :=
                  { cur.binary_op with value := v, resolved := !transient } })
      | .TRUNC_FI =>
        if f.binary_op.resolved then .ok (.vstr f.binary_op.value, fset)
        else
          match resolve flt env transient fuel fset f.binary_op.left_param.index with
          | .error e => .error e
          | .ok (leftRes, fset1) =>
            match leftRes, pyInt (.vstr f.binary_op.right_param.value) with
            | .vstr s, .ok n =>
              match fset1[i]? with
              | Option.none => .error ()
              | some cur =>
                let v := pySlice s n
                .ok (.vstr v, fset1.set i { cur with binary_op :=
                  { cur.binary_op with value := v, resolved := !transient } })
            | _, _ => .error ()
      | .GTEQ_FI =>
        if f.binary_op.resolved then .ok (.vstr f.binary_op.value, fset)
        else
          match resolve flt env transient fuel fset f.binary_op.left_param.index with
          | .error e => .error e
          | .ok (leftRes, fset1) =>
            match pyInt leftRes, pyInt (.vstr f.binary_op.right_param.value) with
            | .ok a, .ok b =>
              match fset1[i]? with
              | Option.none => .error ()
              | some cur =>
                let v := pyBoolStr (b ≤ a)
                .ok (.vstr v, fset1.set i { cur with binary_op :=
                  { cur.binary_op with value := v, resolved := !transient } })
            | _, _ => .error ()
      | .SUBSTR_FS =>
        if f.binary_op.resolved then .ok (.vstr f.binary_op.value, fset)
        else
          match resolve flt env transient fuel fset f.binary_op.left_param.index with
          | .error e => .error e
          | .ok (leftRes, fset1) =>
            match leftRes with
            | .vstr s =>
              match fset1[i]? with
              | Option.none => .error ()
              | some cur =>
                let v := pyBoolStr (decide (List.IsInfix f.binary_op.right_param.value.data s.data))
                .ok (.vstr v, fset1.set i { cur with binary_op :=
                  { cur.binary_op with value := v, resolved := !transient } })
            | _ => .error ()
      | .EXISTS =>
        if f.unary_op.resolved then .ok (.vbool f.unary_op.resolved, fset)
        else
          match fset[f.unary_op.param.index]? with
          | Option.none => .error ()
          | some pf =>
            if pf.ftype = .READ then
              match resolve flt env transient fuel fset f.unary_op.param.index with
              | .error e => .error e
              | .ok (_, fset1) =>
                match fset1[f.unary_op.param.index]?, fset1[i]? with
                | some pf1, some cur =>
                  let v := pyBoolStr pf1.rdata.existed
                  .ok (.vstr v, fset1.set i { cur with unary_op :=
                    { cur.unary_op with value := v, resolved := !transient } })
                | _, _ => .error ()
            else .error ()
      | .POINTER => .error ()
      | .NONE => .error ()

/-! ### Transaction client (`class client`, active code path)

`ClientState` is the mutable state of one `client` instance.  The memcached
connection is external: reads take a `db` function giving the store's reply
to a `gets_many` request (key to value; the version component of a reply
pair is destructured away by the source), and `commit` takes the store's
answer to the `add` (create-if-absent) call.  `_rwset_index` maps a key to
`none` (never accessed), `some none` (accessed by a read; the Python dict
holds `None`), or `some (some i)` (aliases the entry at position `i` of
`transaction.rwset`). -/

inductive EntryType
  | READ | WRITE | READ_WRITE
deriving DecidableEq

/-- The `api_pb2.write` op kind (`write.SET` / `write.DELETE`). -/
inductive WriteKind
  | SET | DELETE
deriving DecidableEq

/-- An `api_pb2.rwset_entry` as populated by the active `_write` path:
`entry.key`, `entry.type`, and the `entry.w` write sub-message. -/
structure RWEntry where
  key : String
  etype : EntryType
  w_type : WriteKind
  w_is_future : Bool
  w_value : String
deriving DecidableEq

/-- The `api_pb2.transaction` message.  `fwset` and `pset` belong to the
future-ops variant and are never populated by the active code path; `begin`
still clears them. -/
structure Transaction where
  id : String := ""
  rwset : List RWEntry := []
  fwset : List Unit := []
  pset : List Unit := []
  num_futures : Nat := 0
  fset : List FNode := []
deriving DecidableEq

structure ClientState where
  /-- `self._id`, the `uuid.uuid4()` rendered into transaction ids; fixed at
  construction. -/
  uuid : String
  /-- `self._transaction_counter`. -/
  transaction_counter : Nat
  /-- `self._rwset_index`. -/
  rwset_index : String → Option (Option Nat)
  /-- `self._transaction`. -/
  transaction : Transaction

/-- A store reply function: request list passed to `gets_many` to the reply
map (present keys to values). -/
abbrev DBFun := List String → String → Option String

/-- `client.__init__` (the connection itself is external). -/
def clientInit (uuid : String) : ClientState :=
  { uuid := uuid
    transaction_counter := 1
    rwset_index := fun _ => Option.none
    transaction := {} }

/-- State change of `client.begin`: reset the index, set the transaction id
from the counter and the client uuid, clear all transaction collections.
`begin` additionally issues `cas(tx_id, '', '0')` whose reply is ignored
and whose store-side effect is outside this model. -/
def beginS (s : ClientState) : ClientState :=
  { s with
    rwset_index := fun _ => Option.none
    transaction :=
      { id := mkTxId s.transaction_counter s.uuid
        rwset := []
        fwset := []
        pset := []
        num_futures := 0
        fset := [] } }

/-- Result of a successful `client.get`: the request list passed to
`gets_many`, the `(exists, value)` pair returned, and the new client state. -/
structure GetOutcome where
  request : List String
  existed : Bool
  value : Option String
  state : ClientState

/-- `client.get` (active path): assert the key was never accessed, mark it in
the index (with `None`), read through `gets_many([tx_id, 'tx', key])`. -/
def get (db : DBFun) (key : String) (s : ClientState) : Except Unit GetOutcome :=
  if (s.rwset_index key).isSome then .error ()
  else
    let s' := { s with rwset_index :=
      fun k => if k = key then some Option.none else s.rwset_index k }
    let req := [s.transaction.id, "tx", key]
    let reply := db req
    .ok { request := req
          existed := (reply key).isSome
          value := reply key
          state := s' }

/-- Result of a successful `client.multiget`. -/
structure MultigetOutcome where
  request : List String
  result : List (String × Bool × Option String)
  state : ClientState

/-- `client.multiget` (active path): assert none of the keys was accessed,
issue one `gets_many([tx_id, 'tx'] + klist)`, then mark every key and
collect per-key `(exists, value)` results. -/
def multiget (db : DBFun) (klist : List String) (s : ClientState) :
    Except Unit MultigetOutcome :=
  if klist.any (fun k => (s.rwset_index k).isSome) then .error ()
  else
    let req := [s.transaction.id, "tx"] ++ klist
    let reply := db req
    .ok { request := req
          result := klist.map (fun k => (k, (reply k).isSome, reply k))
          state := { s with rwset_index :=
            fun k => if klist.contains k then some Option.none else s.rwset_index k } }

/-- `client.get_notxn`: the request is issued before the existence assert, so
it is returned alongside the possibly-failing result. -/
def get_notxn (db : DBFun) (key : String) (s : ClientState) :
    List String × Except Unit (Bool × String) :=
  let req := [s.transaction.id, "notx", key]
  let reply := db req
  (req,
    match reply key with
    | Option.none => .error ()
    | some v => .ok (true, v))

/-- `client.multiget_notxn`. -/
def multiget_notxn (db : DBFun) (klist : List String) (s : ClientState) :
    List String × Except Unit (List (String × Bool × String)) :=
  let req := [s.transaction.id, "notx"] ++ klist
  let reply := db req
  (req,
    if klist.all (fun k => (reply k).isSome) then
      .ok (klist.map (fun k => (k, true, (reply k).getD "")))
    else .error ())

/-- `client._write` (active path).  Total: the source performs no duplicate
check here, it only documents the single-write discipline as an assumption.
All fields of the touched entry are (re)assigned, so the entry is replaced
wholesale. -/
def writeS (write_type : WriteKind) (key value : String) (s : ClientState) :
    ClientState :=
  let entryWith : EntryType → RWEntry := fun et =>
    { key := key, etype := et, w_type := write_type
      w_is_future := false, w_value := value }
  match s.rwset_index key with
  | some (some i) =>
    let rwset' := s.transaction.rwset.set i (entryWith .READ_WRITE)
    { s with transaction := { s.transaction with rwset := rwset' } }
  | some Option.none =>
    let rwset' := s.transaction.rwset ++ [entryWith .READ_WRITE]
    { s with
      rwset_index := fun k =>
        if k = key then some (some s.transaction.rwset.length) else s.rwset_index k
      transaction := { s.transaction with rwset := rwset' } }
  | Option.none =>
    let rwset' := s.transaction.rwset ++ [entryWith .WRITE]
    { s with
      rwset_index := fun k =>
        if k = key then some (some s.transaction.rwset.length) else s.rwset_index k
      transaction := { s.transaction with rwset := rwset' } }

/-- `client.put`. -/
def put (key value : String) (s : ClientState) : ClientState :=
  writeS .SET key value s

/-- `client.remove`. -/
def remove (key : String) (s : ClientState) : ClientState :=
  writeS .DELETE key "" s

/-- `client._done`. -/
def doneS (s : ClientState) : ClientState :=
  { s with transaction_counter := s.transaction_counter + 1 }

/-- `client.abort` (calls `_done`). -/
def abortS (s : ClientState) : ClientState :=
  doneS s

/-- Outcome of `client.commit`: the single `add` (create-if-absent) request
issued, the `transaction_aborted` reason if `_retry` raised, and the client
state afterwards (unchanged when the exception propagates). -/
structure CommitOutcome (β : Type) where
  request_key : String
  request_payload : β
  aborted : Option String
  state : ClientState

/-- `client.commit`: serialize the in-flight transaction, issue one
create-if-absent keyed by the transaction id, then `_done` on success or
`_retry('commit')` on rejection.  `ser` abstracts protobuf
`SerializeToString` (generated code, not in the repository); `dbAdd` is the
store's answer to `add`. -/
def commit {β : Type} (ser : Transaction → β) (dbAdd : String → β → Bool)
    (s : ClientState) : CommitOutcome β :=
  let pb := ser s.transaction
  let committed := dbAdd s.transaction.id pb
  { request_key := s.transaction.id
    request_payload := pb
    aborted := if committed then Option.none else some "commit"
    state := if committed then doneS s else s }

/-- Read/write operations available inside one transaction, for statements
quantifying over call sequences. -/
inductive Op
  | get (key : String)
  | mget (klist : List String)
  | put (key value : String)
  | rem (key : String)

/-- One operation against the client, discarding read results. -/
def execOp (db : DBFun) : Op → ClientState → Except Unit ClientState
  | .get k, s => (get db k s).map GetOutcome.state
  | .mget ks, s => (multiget db ks s).map MultigetOutcome.state
  | .put k v, s => .ok (put k v s)
  | .rem k, s => .ok (remove k s)

/-- A sequence of operations; an assertion failure aborts the run. -/
def exec (db : DBFun) : List Op → ClientState → Except Unit ClientState
  | [], s => .ok s
  | o :: rest, s =>
    match execOp db o s with
    | .error e => .error e
    | .ok s1 => exec db rest s1

/-- Does the operation write (put or remove) the given key? -/
def writesKey (k : String) : Op → Prop
  | .put k' _ => k' = k
  | .rem k' => k' = k
  | _ => False

/-- Structural well-formedness of the client state, maintained by every
operation: entry keys are distinct, and the index agrees with the entry
list. -/
structure WF (s : ClientState) : Prop where
  nodup : (s.transaction.rwset.map RWEntry.key).Nodup
  idx_entry : ∀ k i, s.rwset_index k = some (some i) →
    ∃ h : i < s.transaction.rwset.length,
      (s.transaction.rwset.get ⟨i, h⟩).key = k
  unmarked_no_entry : ∀ k, s.rwset_index k = Option.none →
    k ∉ s.transaction.rwset.map RWEntry.key
  read_no_entry : ∀ k, s.rwset_index k = some Option.none →
    k ∉ s.transaction.rwset.map RWEntry.key

/-- A key already accessed this transaction (present in `_rwset_index`,
whether by a read or a write). -/
def Accessed (s : ClientState) (k : String) : Prop :=
  (s.rwset_index k).isSome

/-- The key has a written entry of kind READ_WRITE, aliased by the index. -/
def WrittenRW (s : ClientState) (k : String) : Prop :=
  ∃ i, s.rwset_index k = some (some i) ∧
    ∃ h : i < s.transaction.rwset.length,
      (s.transaction.rwset.get ⟨i, h⟩).key = k ∧
      (s.transaction.rwset.get ⟨i, h⟩).etype = .READ_WRITE

/-! ### Benchmark bookkeeping (`util/results.py`)

Timestamps (`time.time()`) are abstract `Nat` ticks supplied by the caller;
an `HdrHistogram` is modelled by the list of values recorded into it.  The
five transaction-type keys of the counter dictionaries become the `TxnType`
enum, making the dictionaries total functions. -/

inductive TxnType
  | DELIVERY | NEW_ORDER | ORDER_STATUS | PAYMENT | STOCK_LEVEL
deriving DecidableEq

structure Results where
  start : Option Nat
  stop : Option Nat
  txn_id : Nat
  txn_counters : TxnType → Nat
  txn_times : TxnType → List Nat
  txn_aborts : TxnType → Nat
  running : Nat → Option (TxnType × Nat)

/-- `Results.__init__`. -/
def initResults : Results :=
  { start := Option.none
    stop := Option.none
    txn_id := 0
    txn_counters := fun _ => 0
    txn_times := fun _ => []
    txn_aborts := fun _ => 0
    running := fun _ => Option.none }

/-- `Results.startTransaction`: allocate the next id, record the running
transaction, return the id. -/
def startTransaction (now : Nat) (txn : TxnType) (r : Results) : Nat × Results :=
  let id := r.txn_id + 1
  (id, { r with
    txn_id := id
    running := fun j => if j = id then some (txn, now) else r.running j })

/-- `Results.abortTransaction`: assert the id is running, bump the abort
counter of its type.  The `del self.running[id]` line is commented out in
the source, so the running map is left untouched. -/
def abortTransaction (id : Nat) (r : Results) : Except Unit Results :=
  match r.running id with
  | Option.none => .error ()
  | some (txn, _) =>
    .ok { r with txn_aborts := fun t =>
      if t = txn then r.txn_aborts txn + 1 else r.txn_aborts t }

/-- `Results.stopTransaction`: assert the id is running, remove it, and when
`measure` is set record the latency and bump the executed counter. -/
def stopTransaction (id : Nat) (measure : Bool) (now : Nat) (r : Results) :
    Except Unit Results :=
  match r.running id with
  | Option.none => .error ()
  | some (txn, txn_start) =>
    let r1 := { r with running := fun j => if j = id then Option.none else r.running j }
    .ok (if measure then
      { r1 with
        txn_times := fun t =>
          if t = txn then r1.txn_times txn ++ [(now - txn_start) * 1000000]
          else r1.txn_times t
        txn_counters := fun t =>
          if t = txn then r1.txn_counters txn + 1 else r1.txn_counters t }
    else r1)

/-! ### Concrete fixtures used by witnesses and counterexamples -/

/-- A store stub whose every reply is empty. -/
def db0 : DBFun := fun _ _ => Option.none

/-- A float semantics stub (never consulted by the scenarios below). -/
def flt0 : FloatSem := fun _ _ _ => .error ()

/-- An empty read environment. -/
def env0 : String → Option (Bool × String) := fun _ => Option.none

/-- A READ node already durably resolved with `existed = false` (its key was
absent), as `commit`'s replay loop or `is_true` produce. -/
def c7ReadNode : FNode :=
  { ftype := .READ
    rdata := { resolved := true, key := "k", existed := false, value := "" } }

/-- An unresolved EXISTS node over the READ node at index 0, as `_unary_op`
builds it. -/
def c7ExistsNode : FNode :=
  { ftype := .EXISTS, unary_op := { param := { index := 0 } } }

/-- Future set holding the two nodes above. -/
def c7Fset : List FNode := [c7ReadNode, c7ExistsNode]

/-- The future set after one durable resolution of the EXISTS node. -/
def c7FsetAfter : List FNode :=
  [c7ReadNode,
   { ftype := .EXISTS
     unary_op := { resolved := true, value := "False", param := { index := 0 } } }]

theorem digitChr_toNat (d : Nat) (h : d < 10) : (digitChr d).toNat = 48 + d := by
  interval_cases d <;> rfl

theorem digitChr_ne_dash (d : Nat) : digitChr d ≠ '-' := by
  unfold digitChr
  split <;> decide

theorem digitChr_ne_under (d : Nat) : digitChr d ≠ '_' := by
  unfold digitChr
  split <;> decide

theorem valOfDigits_foldl (l : List Char) (a : Nat) :
    l.foldl (fun a c => a * 10 + (c.toNat - 48)) a =
      a * 10 ^ l.length + valOfDigits l := by
  induction l generalizing a with
  | nil => simp [valOfDigits]
  | cons c t ih =>
    simp only [List.foldl_cons, valOfDigits, pow_succ, List.length_cons]
    rw [ih, ih (0 * 10 + (c.toNat - 48))]
    ring

theorem natDigitsAux_fuel (n : Nat) : ∀ fuel fuel' : Nat, n < fuel → n < fuel' →
    natDigitsAux fuel n = natDigitsAux fuel' n := by
  induction n using Nat.strong_induction_on with
  | _ n ih =>
    intro fuel fuel' hf hf'
    match fuel, fuel' with
    | f + 1, f' + 1 =>
      show (if n < 10 then _ else _) = (if n < 10 then _ else _)
      split
      · rfl
      · next h =>
        rw [ih (n / 10) (Nat.div_lt_self (by omega) (by omega)) f f'
          (by have := Nat.div_lt_self (show 0 < n by omega) (show 1 < 10 by omega); omega)
          (by have := Nat.div_lt_self (show 0 < n by omega) (show 1 < 10 by omega); omega)]

theorem natDigits_unfold (n : Nat) :
    natDigits n = if n < 10 then [digitChr n]
      else natDigits (n / 10) ++ [digitChr (n % 10)] := by
  show natDigitsAux (n + 1) n = _
  show (if n < 10 then _ else natDigitsAux n (n / 10) ++ _) = _
  split
  · rfl
  · next h =>
    rw [natDigitsAux_fuel (n / 10) n (n / 10 + 1)
      (by have := Nat.div_lt_self (show 0 < n by omega) (show 1 < 10 by omega); omega)
      (by omega)]
    rfl

theorem valOfDigits_natDigits (n : Nat) : valOfDigits (natDigits n) = n := by
  induction n using Nat.strong_induction_on with
  | _ n ih =>
    rw [natDigits_unfold]
    split
    · next h =>
      simp [valOfDigits, digitChr_toNat n h]
    · next h =>
      rw [valOfDigits, List.foldl_append, ← valOfDigits,
        ih (n / 10) (Nat.div_lt_self (by omega) (by omega))]
      simp only [List.foldl_cons, List.foldl_nil]
      rw [digitChr_toNat (n % 10) (Nat.mod_lt _ (by omega))]
      omega

theorem natDigits_ne_dash (n : Nat) : ∀ c ∈ natDigits n, c ≠ '-' := by
  induction n using Nat.strong_induction_on with
  | _ n ih =>
    rw [natDigits_unfold]
    split
    · intro c hc
      simp only [List.mem_singleton] at hc
      subst hc
      exact digitChr_ne_dash n
    · next h =>
      intro c hc
      rcases List.mem_append.mp hc with h1 | h1
      · exact ih (n / 10) (Nat.div_lt_self (by omega) (by omega)) c h1
      · simp only [List.mem_singleton] at h1
        subst h1
        exact digitChr_ne_dash (n % 10)

theorem takeWhile_append_of_stop {α : Type} (p : α → Bool) (l : List α) (a : α)
    (r : List α) (hl : ∀ c ∈ l, p c = true) (ha : p a = false) :
    (l ++ a :: r).takeWhile p = l := by
  induction l with
  | nil => simp [List.takeWhile_cons, ha]
  | cons x t ih =>
    simp only [List.cons_append, List.takeWhile_cons]
    rw [hl x (by simp)]
    simp [ih (fun c hc => hl c (by simp [hc]))]

theorem data_mkTxId (c : Nat) (u : String) :
    (mkTxId c u).data = natDigits c ++ '-' :: u.data := by
  show ((natStr c ++ "-") ++ u).data = _
  rw [String.data_append, String.data_append, List.append_assoc]
  rfl

/-- The decimal prefix of a generated transaction id parses back to the
counter it was rendered from. -/
theorem seqOfTxId_mkTxId (c : Nat) (u : String) : seqOfTxId (mkTxId c u) = c := by
  unfold seqOfTxId
  rw [data_mkTxId]
  rw [takeWhile_append_of_stop _ _ _ _
    (fun ch hc => decide_eq_true (natDigits_ne_dash c ch hc)) (by simp)]
  exact valOfDigits_natDigits c

/-! ### C1, C2: commit protocol and sequence numbers -/

/-- C1: `commit()` issues a single create-if-absent whose store key is the
transaction id and whose payload is the serialization of the in-flight
transaction `{id, rwset, fset, ...}`; it returns normally iff the store
accepts the create, and on rejection raises the retryable
`transaction_aborted('commit')` signal leaving the client state — in
particular the per-client sequence counter — unchanged. -/
theorem c1_commit_protocol {β : Type} (ser : Transaction → β)
    (dbAdd : String → β → Bool) (s : ClientState) :
    (commit ser dbAdd s).request_key = s.transaction.id
    ∧ (commit ser dbAdd s).request_payload = ser s.transaction
    ∧ ((commit ser dbAdd s).aborted = Option.none ↔
        dbAdd s.transaction.id (ser s.transaction) = true)
    ∧ (dbAdd s.transaction.id (ser s.transaction) = true →
        (commit ser dbAdd s).state = doneS s
        ∧ (commit ser dbAdd s).state.transaction_counter = s.transaction_counter + 1)
    ∧ (dbAdd s.transaction.id (ser s.transaction) = false →
        (commit ser dbAdd s).aborted = some "commit"
        ∧ (commit ser dbAdd s).state = s
        ∧ (commit ser dbAdd s).state.transaction_counter = s.transaction_counter) := by
  cases h : dbAdd s.transaction.id (ser s.transaction) <;>
    simp [commit, h, doneS]

/-- C1 witness: concrete commits against an always-rejecting and an
always-accepting store stub. -/
theorem c1_commit_protocol_witness :
    (commit (fun t => t) (fun _ _ => false) (clientInit "u")).aborted = some "commit"
    ∧ (commit (fun t => t) (fun _ _ => false) (clientInit "u")).state.transaction_counter = 1
    ∧ (commit (fun t => t) (fun _ _ => true) (clientInit "u")).state.transaction_counter = 2 := by
  refine ⟨((c1_commit_protocol (fun t => t) (fun _ _ => false) (clientInit "u")).2.2.2.2 rfl).1,
    ?_, ?_⟩
  · have h := ((c1_commit_protocol (fun t => t) (fun _ _ => false) (clientInit "u")).2.2.2.2 rfl).2.2
    rw [h]
    rfl
  · have h := ((c1_commit_protocol (fun t => t) (fun _ _ => true) (clientInit "u")).2.2.2.1 rfl).2
    rw [h]
    rfl

/-- C2: the sequence number embedded in the transaction id starts at 1,
strictly increases across a `begin()` that follows a successful `commit()`
or an explicit `abort()`, and the id string is reused verbatim by a
`begin()` that follows a commit rejection. -/
theorem c2_sequence_numbers (s0 : ClientState) (u : String) :
    (clientInit u).transaction_counter = 1
    ∧ seqOfTxId (beginS (clientInit u)).transaction.id = 1
    ∧ (beginS s0).transaction.id = mkTxId s0.transaction_counter s0.uuid
    ∧ seqOfTxId (beginS s0).transaction.id = s0.transaction_counter
    ∧ seqOfTxId (beginS (abortS (beginS s0))).transaction.id = s0.transaction_counter + 1
    ∧ seqOfTxId (beginS (abortS (beginS s0))).transaction.id
        > seqOfTxId (beginS s0).transaction.id
    ∧ (∀ (β : Type) (ser : Transaction → β) (dbAdd : String → β → Bool),
        dbAdd (beginS s0).transaction.id (ser (beginS s0).transaction) = true →
          seqOfTxId (beginS (commit ser dbAdd (beginS s0)).state).transaction.id
            = s0.transaction_counter + 1)
    ∧ (∀ (β : Type) (ser : Transaction → β) (dbAdd : String → β → Bool),
        dbAdd (beginS s0).transaction.id (ser (beginS s0).transaction) = false →
          (beginS (commit ser dbAdd (beginS s0)).state).transaction.id
            = (beginS s0).transaction.id) := by
  refine ⟨rfl, ?_, rfl, ?_, ?_, ?_, ?_, ?_⟩
  · exact seqOfTxId_mkTxId 1 u
  · exact seqOfTxId_mkTxId s0.transaction_counter s0.uuid
  · exact seqOfTxId_mkTxId (s0.transaction_counter + 1) s0.uuid
  · rw [show seqOfTxId (beginS (abortS (beginS s0))).transaction.id
        = s0.transaction_counter + 1 from
          seqOfTxId_mkTxId (s0.transaction_counter + 1) s0.uuid,
      show seqOfTxId (beginS s0).transaction.id = s0.transaction_counter from
        seqOfTxId_mkTxId s0.transaction_counter s0.uuid]
    omega
  · intro β ser dbAdd h
    simp only [commit, h, if_true]
    exact seqOfTxId_mkTxId (s0.transaction_counter + 1) s0.uuid
  · intro β ser dbAdd h
    simp only [commit, h]
    rfl

/-- C2 witness: a committed transaction advances the next id to sequence 2;
a rejected commit leads `begin()` to reuse the id string `"1-u"` verbatim. -/
theorem c2_sequence_numbers_witness :
    seqOfTxId (beginS (commit (fun t => t) (fun _ _ => true)
        (beginS (clientInit "u"))).state).transaction.id = 2
    ∧ (beginS (commit (fun t => t) (fun _ _ => false)
        (beginS (clientInit "u"))).state).transaction.id = "1-u" := by
  constructor
  · exact (c2_sequence_numbers (clientInit "u") "u").2.2.2.2.2.2.1
      Transaction (fun t => t) (fun _ _ => true) rfl
  · rw [(c2_sequence_numbers (clientInit "u") "u").2.2.2.2.2.2.2
      Transaction (fun t => t) (fun _ _ => false) rfl]
    rfl

/-! ### C8: request context markers -/

/-- C8: every store read prepends a two-element context marker to the key
list of the underlying `gets_many`: `[tx_id, "tx"]` for in-transaction
reads and `[tx_id, "notx"]` for non-transactional reads, followed by the
real keys. -/
theorem c8_request_markers (db : DBFun) (s : ClientState) (k : String)
    (klist : List String) :
    (∀ out, get db k s = .ok out → out.request = [s.transaction.id, "tx"] ++ [k])
    ∧ (∀ out, multiget db klist s = .ok out →
        out.request = [s.transaction.id, "tx"] ++ klist)
    ∧ (get_notxn db k s).1 = [s.transaction.id, "notx"] ++ [k]
    ∧ (multiget_notxn db klist s).1 = [s.transaction.id, "notx"] ++ klist := by
  refine ⟨?_, ?_, rfl, rfl⟩
  · intro out h
    unfold get at h
    split at h
    · exact absurd h (by simp)
    · cases h
      rfl
  · intro out h
    unfold multiget at h
    split at h
    · exact absurd h (by simp)
    · cases h
      rfl

/-- C8 witness: concrete request lists for the four read operations. -/
theorem c8_request_markers_witness :
    (get db0 "a" (beginS (clientInit "u"))).map GetOutcome.request
      = .ok ["1-u", "tx", "a"]
    ∧ (multiget db0 ["a", "b"] (beginS (clientInit "u"))).map MultigetOutcome.request
      = .ok ["1-u", "tx", "a", "b"]
    ∧ (get_notxn db0 "a" (beginS (clientInit "u"))).1 = ["1-u", "notx", "a"]
    ∧ (multiget_notxn db0 ["a", "b"] (beginS (clientInit "u"))).1
      = ["1-u", "notx", "a", "b"] := by
  obtain ⟨o1, h1⟩ : ∃ o, get db0 "a" (beginS (clientInit "u")) = .ok o := ⟨_, rfl⟩
  obtain ⟨o2, h2⟩ : ∃ o, multiget db0 ["a", "b"] (beginS (clientInit "u")) = .ok o :=
    ⟨_, rfl⟩
  have m := c8_request_markers db0 (beginS (clientInit "u")) "a" ["a", "b"]
  refine ⟨?_, ?_, m.2.2.1, m.2.2.2⟩
  · rw [h1, Except.map, m.1 o1 h1]
    rfl
  · rw [h2, Except.map, m.2.1 o2 h2]
    rfl

/-! ### Read/write-set invariants (toward C3, C4, C5, C6) -/

theorem get_append_length {α : Type} (l : List α) (e : α)
    (h : l.length < (l ++ [e]).length) : (l ++ [e]).get ⟨l.length, h⟩ = e := by
  induction l with
  | nil => rfl
  | cons x t ih => exact ih (by simp)

theorem get_append_lt {α : Type} (l : List α) (e : α) (i : Nat) (hi : i < l.length)
    (h2 : i < (l ++ [e]).length) : (l ++ [e]).get ⟨i, h2⟩ = l.get ⟨i, hi⟩ := by
  induction l generalizing i with
  | nil => exact absurd hi (by simp)
  | cons x t ih =>
    cases i with
    | zero => rfl
    | succ j => exact ih j (by simpa using hi) (by simpa using h2)

theorem set_append_length {α : Type} (l : List α) (e e' : α) :
    (l ++ [e]).set l.length e' = l ++ [e'] := by
  induction l with
  | nil => rfl
  | cons x t ih => simp [ih]

theorem set_self_get {α : Type} (l : List α) (i : Nat) (h : i < l.length) :
    l.set i (l.get ⟨i, h⟩) = l := by
  induction l generalizing i with
  | nil => rfl
  | cons x t ih =>
    cases i with
    | zero => rfl
    | succ j => simpa using ih j (by simpa using h)

theorem get_set_ne {α : Type} (l : List α) (i j : Nat) (e : α) (hij : i ≠ j)
    (hj : j < (l.set i e).length) (hj' : j < l.length) :
    (l.set i e).get ⟨j, hj⟩ = l.get ⟨j, hj'⟩ := by
  induction l generalizing i j with
  | nil => exact absurd hj' (by simp)
  | cons x t ih =>
    cases i with
    | zero =>
      cases j with
      | zero => omega
      | succ m => rfl
    | succ n =>
      cases j with
      | zero => rfl
      | succ m => exact ih n m (by omega) (by simpa using hj) (by simpa using hj')

theorem get_set_eq {α : Type} (l : List α) (i : Nat) (e : α)
    (h : i < (l.set i e).length) : (l.set i e).get ⟨i, h⟩ = e := by
  induction l generalizing i with
  | nil => simp at h
  | cons x t ih =>
    cases i with
    | zero => rfl
    | succ n => exact ih n (by simpa using h)

/-- Characterization of a successful `get`. -/
theorem get_ok_state {db : DBFun} {k : String} {s : ClientState} {out : GetOutcome}
    (h : get db k s = .ok out) :
    (s.rwset_index k).isSome = false
    ∧ out.state = { s with rwset_index :=
        fun k' => if k' = k then some Option.none else s.rwset_index k' } := by
  unfold get at h
  split at h
  · exact absurd h (by simp)
  · next hcond =>
    cases h
    exact ⟨by simpa using hcond, rfl⟩

/-- Characterization of a successful `multiget`. -/
theorem multiget_ok_state {db : DBFun} {klist : List String} {s : ClientState}
    {out : MultigetOutcome} (h : multiget db klist s = .ok out) :
    (∀ k ∈ klist, s.rwset_index k = Option.none)
    ∧ out.state = { s with rwset_index :=
        fun k' => if klist.contains k' then some Option.none else s.rwset_index k' } := by
  unfold multiget at h
  split at h
  · exact absurd h (by simp)
  · next hcond =>
    cases h
    refine ⟨?_, rfl⟩
    simpa using hcond

/-- A write always leaves the key marked in the index. -/
theorem write_accessed (wt : WriteKind) (k v : String) (s : ClientState) :
    Accessed (writeS wt k v s) k := by
  unfold Accessed writeS
  rcases hx : s.rwset_index k with _ | (_ | i) <;> simp [hx]

/-- A successful read leaves the key marked in the index. -/
theorem get_accessed {db : DBFun} {k : String} {s : ClientState} {out : GetOutcome}
    (h : get db k s = .ok out) : Accessed out.state k := by
  rw [(get_ok_state h).2]
  simp [Accessed]

/-- A successful multiget leaves all its keys marked in the index. -/
theorem multiget_accessed {db : DBFun} {klist : List String} {s : ClientState}
    {out : MultigetOutcome} (h : multiget db klist s = .ok out) :
    ∀ k ∈ klist, Accessed out.state k := by
  intro k hk
  rw [(multiget_ok_state h).2]
  simp [Accessed, hk]

theorem WF_begin (s : ClientState) : WF (beginS s) := by
  refine ⟨by simp [beginS], ?_, ?_, ?_⟩
  · intro k i h
    simp [beginS] at h
  · intro k _
    simp [beginS]
  · intro k h
    simp [beginS] at h

theorem WF_get {db : DBFun} {k : String} {s : ClientState} {out : GetOutcome}
    (h : get db k s = .ok out) (hs : WF s) : WF out.state := by
  obtain ⟨hfree, hst⟩ := get_ok_state h
  rw [hst]
  refine ⟨hs.nodup, ?_, ?_, ?_⟩
  · intro k' i hk'
    simp only at hk'
    by_cases hkk : k' = k
    · simp [hkk] at hk'
    · rw [if_neg hkk] at hk'
      exact hs.idx_entry k' i hk'
  · intro k' hk'
    simp only at hk'
    by_cases hkk : k' = k
    · simp [hkk] at hk'
    · rw [if_neg hkk] at hk'
      exact hs.unmarked_no_entry k' hk'
  · intro k' hk'
    simp only at hk'
    by_cases hkk : k' = k
    · subst hkk
      exact hs.unmarked_no_entry k' (Option.not_isSome_iff_eq_none.mp (by simp [hfree]))
    · rw [if_neg hkk] at hk'
      exact hs.read_no_entry k' hk'

theorem nodup_append_singleton {l : List String} {k : String} (h : l.Nodup)
    (hk : k ∉ l) : (l ++ [k]).Nodup := by
  rw [List.nodup_append]
  refine ⟨h, List.nodup_singleton _, ?_⟩
  intro a ha hb
  simp only [List.mem_singleton] at hb
  subst hb
  exact hk ha

theorem WF_multiget {db : DBFun} {klist : List String} {s : ClientState}
    {out : MultigetOutcome} (h : multiget db klist s = .ok out) (hs : WF s) :
    WF out.state := by
  obtain ⟨hfree, hst⟩ := multiget_ok_state h
  rw [hst]
  refine ⟨hs.nodup, ?_, ?_, ?_⟩
  · intro k' i hk'
    by_cases hkk : k' ∈ klist
    · simp [hkk] at hk'
    · simp only [hkk] at hk'
      simp [hkk] at hk'
      exact hs.idx_entry k' i hk'
  · intro k' hk'
    by_cases hkk : k' ∈ klist
    · simp [hkk] at hk'
    · simp [hkk] at hk'
      exact hs.unmarked_no_entry k' hk'
  · intro k' hk'
    by_cases hkk : k' ∈ klist
    · exact hs.unmarked_no_entry k' (hfree k' hkk)
    · simp [hkk] at hk'
      exact hs.read_no_entry k' hk'

theorem WF_write (wt : WriteKind) (k v : String) {s : ClientState} (hs : WF s) :
    WF (writeS wt k v s) := by
  unfold writeS
  rcases hx : s.rwset_index k with _ | (_ | i)
  · -- fresh WRITE entry appended
    have hk : k ∉ s.transaction.rwset.map RWEntry.key := hs.unmarked_no_entry k hx
    refine ⟨?_, ?_, ?_, ?_⟩
    · rw [List.map_append]
      exact nodup_append_singleton hs.nodup hk
    · intro k' i hk'
      simp only at hk'
      by_cases hkk : k' = k
      · subst hkk
        rw [if_pos rfl] at hk'
        cases hk'
        refine ⟨by simp, ?_⟩
        exact congrArg RWEntry.key (get_append_length _ _ _)
      · rw [if_neg hkk] at hk'
        obtain ⟨hlt, hkey⟩ := hs.idx_entry k' i hk'
        refine ⟨by simp; omega, ?_⟩
        rw [get_append_lt _ _ i hlt]
        exact hkey
    · intro k' hk'
      simp only at hk'
      by_cases hkk : k' = k
      · simp [hkk] at hk'
      · rw [if_neg hkk] at hk'
        have := hs.unmarked_no_entry k' hk'
        simp only [List.map_append, List.mem_append] at *
        rintro (h1 | h1)
        · exact this h1
        · simp at h1
          exact hkk h1
    · intro k' hk'
      simp only at hk'
      by_cases hkk : k' = k
      · simp [hkk] at hk'
      · rw [if_neg hkk] at hk'
        have := hs.read_no_entry k' hk'
        simp only [List.map_append, List.mem_append] at *
        rintro (h1 | h1)
        · exact this h1
        · simp at h1
          exact hkk h1
  · -- read entry upgraded: fresh READ_WRITE entry appended
    have hk : k ∉ s.transaction.rwset.map RWEntry.key := hs.read_no_entry k hx
    refine ⟨?_, ?_, ?_, ?_⟩
    · rw [List.map_append]
      exact nodup_append_singleton hs.nodup hk
    · intro k' i hk'
      simp only at hk'
      by_cases hkk : k' = k
      · subst hkk
        rw [if_pos rfl] at hk'
        cases hk'
        refine ⟨by simp, ?_⟩
        exact congrArg RWEntry.key (get_append_length _ _ _)
      · rw [if_neg hkk] at hk'
        obtain ⟨hlt, hkey⟩ := hs.idx_entry k' i hk'
        refine ⟨by simp; omega, ?_⟩
        rw [get_append_lt _ _ i hlt]
        exact hkey
    · intro k' hk'
      simp only at hk'
      by_cases hkk : k' = k
      · simp [hkk] at hk'
      · rw [if_neg hkk] at hk'
        have := hs.unmarked_no_entry k' hk'
        simp only [List.map_append, List.mem_append] at *
        rintro (h1 | h1)
        · exact this h1
        · simp at h1
          exact hkk h1
    · intro k' hk'
      simp only at hk'
      by_cases hkk : k' = k
      · simp [hkk] at hk'
      · rw [if_neg hkk] at hk'
        have := hs.read_no_entry k' hk'
        simp only [List.map_append, List.mem_append] at *
        rintro (h1 | h1)
        · exact this h1
        · simp at h1
          exact hkk h1
  · -- existing written entry overwritten in place
    obtain ⟨hlt, hkey⟩ := hs.idx_entry k i hx
    have hmap : (s.transaction.rwset.set i
        { key := k, etype := .READ_WRITE, w_type := wt
          w_is_future := false, w_value := v : RWEntry }).map RWEntry.key
        = s.transaction.rwset.map RWEntry.key := by
      calc (s.transaction.rwset.set i _).map RWEntry.key
          = (s.transaction.rwset.map RWEntry.key).set i k := by
            rw [List.map_set]
        _ = (s.transaction.rwset.map RWEntry.key).set i
              ((s.transaction.rwset.map RWEntry.key).get
                ⟨i, by simpa using hlt⟩) := by
            rw [List.get_eq_getElem, List.getElem_map]
            exact congrArg _ hkey.symm
        _ = s.transaction.rwset.map RWEntry.key := set_self_get _ _ _
    refine ⟨?_, ?_, ?_, ?_⟩
    · simpa [hmap] using hs.nodup
    · intro k' j hk'
      simp only at hk'
      obtain ⟨hlt', hkey'⟩ := hs.idx_entry k' j hk'
      by_cases hij : j = i
      · subst hij
        refine ⟨by simpa using hlt', ?_⟩
        rw [get_set_eq]
        show k = k'
        rw [← hkey]
        exact hkey'
      · refine ⟨by simpa using hlt', ?_⟩
        rw [get_set_ne _ i j _ (fun hh => hij hh.symm) _ hlt']
        exact hkey'
    · intro k' hk'
      rw [hmap]
      exact hs.unmarked_no_entry k' hk'
    · intro k' hk'
      rw [hmap]
      exact hs.read_no_entry k' hk'

/-- Keys other than the written one keep their index binding. -/
theorem writeS_index_other (wt : WriteKind) (k v : String) (s : ClientState)
    (k' : String) (hne : k' ≠ k) :
    (writeS wt k v s).rwset_index k' = s.rwset_index k' := by
  unfold writeS
  rcases hx : s.rwset_index k with _ | (_ | i) <;> simp [hx, hne]

theorem WF_execOp {db : DBFun} {o : Op} {s s1 : ClientState}
    (h : execOp db o s = .ok s1) (hs : WF s) : WF s1 := by
  cases o with
  | get k =>
    simp only [execOp] at h
    cases hg : LsdDriver.get db k s with
    | error e => rw [hg] at h; exact absurd h (by simp [Except.map])
    | ok out =>
      rw [hg] at h
      cases h
      exact WF_get hg hs
  | mget ks =>
    simp only [execOp] at h
    cases hg : multiget db ks s with
    | error e => rw [hg] at h; exact absurd h (by simp [Except.map])
    | ok out =>
      rw [hg] at h
      cases h
      exact WF_multiget hg hs
  | put k v =>
    cases h
    exact WF_write .SET k v hs
  | rem k =>
    cases h
    exact WF_write .DELETE k "" hs

theorem WF_exec {db : DBFun} {ops : List Op} {s s' : ClientState}
    (h : exec db ops s = .ok s') (hs : WF s) : WF s' := by
  induction ops generalizing s with
  | nil => cases h; exact hs
  | cons o rest ih =>
    simp only [exec] at h
    cases ho : execOp db o s with
    | error e => rw [ho] at h; exact absurd h (by simp)
    | ok s1 =>
      rw [ho] at h
      exact ih h (WF_execOp ho hs)

/-- Once a key is accessed, it stays accessed. -/
theorem accessed_mono {db : DBFun} {o : Op} {s s1 : ClientState} {k : String}
    (h : execOp db o s = .ok s1) (ha : Accessed s k) : Accessed s1 k := by
  cases o with
  | get k' =>
    simp only [execOp] at h
    cases hg : LsdDriver.get db k' s with
    | error e => rw [hg] at h; exact absurd h (by simp [Except.map])
    | ok out =>
      rw [hg] at h
      cases h
      rw [(get_ok_state hg).2]
      unfold Accessed at *
      by_cases hkk : k = k' <;> simp [hkk, ha]
  | mget ks =>
    simp only [execOp] at h
    cases hg : multiget db ks s with
    | error e => rw [hg] at h; exact absurd h (by simp [Except.map])
    | ok out =>
      rw [hg] at h
      cases h
      rw [(multiget_ok_state hg).2]
      unfold Accessed at *
      by_cases hkk : k ∈ ks <;> simp [hkk, ha]
  | put k' v =>
    cases h
    by_cases hkk : k = k'
    · subst hkk
      exact write_accessed .SET k v s
    · unfold Accessed
      rw [show LsdDriver.put k' v s = writeS .SET k' v s from rfl,
        writeS_index_other _ _ _ _ _ hkk]
      exact ha
  | rem k' =>
    cases h
    by_cases hkk : k = k'
    · subst hkk
      exact write_accessed .DELETE k "" s
    · unfold Accessed
      rw [show LsdDriver.remove k' s = writeS .DELETE k' "" s from rfl,
        writeS_index_other _ _ _ _ _ hkk]
      exact ha

/-- A `get` on an accessed key makes the whole run fail: there is no
successful run whose remaining operations read an already-accessed key. -/
theorem no_get_after_access {db : DBFun} {ops : List Op} {s s' : ClientState}
    {k : String} (ha : Accessed s k) (hg : Op.get k ∈ ops) :
    exec db ops s ≠ .ok s' := by
  induction ops generalizing s with
  | nil => simp at hg
  | cons o rest ih =>
    intro h
    simp only [exec] at h
    cases ho : execOp db o s with
    | error e => rw [ho] at h; exact absurd h (by simp)
    | ok s1 =>
      rw [ho] at h
      rcases List.mem_cons.mp hg with rfl | hg'
      · simp only [execOp] at ho
        unfold get at ho
        rw [if_pos (by simpa [Accessed] using ha)] at ho
        exact absurd ho (by simp [Except.map])
      · exact ih (accessed_mono ho ha) hg' h

/-- A READ_WRITE entry survives any write (to this or another key). -/
theorem writtenRW_write {wt : WriteKind} {k' v : String} {s : ClientState}
    {k : String} (hs : WF s) (hw : WrittenRW s k) :
    WrittenRW (writeS wt k' v s) k := by
  obtain ⟨i, hidx, hlt, hkey, hty⟩ := hw
  by_cases hkk : k' = k
  · subst hkk
    unfold writeS
    simp only [hidx]
    refine ⟨i, hidx, by simpa using hlt, ?_, ?_⟩
    · rw [get_set_eq]
    · rw [get_set_eq]
  · have hkk2 : ¬k = k' := fun hh => hkk hh.symm
    unfold writeS
    rcases hx : s.rwset_index k' with _ | (_ | j)
    · simp only [hx]
      refine ⟨i, by simp [hkk2, hidx], by simp; omega, ?_, ?_⟩
      · rw [get_append_lt _ _ i hlt]
        exact hkey
      · rw [get_append_lt _ _ i hlt]
        exact hty
    · simp only [hx]
      refine ⟨i, by simp [hkk2, hidx], by simp; omega, ?_, ?_⟩
      · rw [get_append_lt _ _ i hlt]
        exact hkey
      · rw [get_append_lt _ _ i hlt]
        exact hty
    · simp only [hx]
      obtain ⟨hltj, hkeyj⟩ := hs.idx_entry k' j hx
      have hij : j ≠ i := by
        intro hh
        subst hh
        rw [hkey] at hkeyj
        exact hkk hkeyj.symm
      refine ⟨i, hidx, by simpa using hlt, ?_, ?_⟩
      · rw [get_set_ne _ j i _ hij _ hlt]
        exact hkey
      · rw [get_set_ne _ j i _ hij _ hlt]
        exact hty

/-- Writing a key that carries a read marker creates its single READ_WRITE
entry (the in-place upgrade path). -/
theorem write_on_read_marked {wt : WriteKind} {k v : String} {s : ClientState}
    (hm : s.rwset_index k = some Option.none) :
    WrittenRW (writeS wt k v s) k := by
  unfold writeS
  simp only [hm]
  refine ⟨s.transaction.rwset.length, by simp, by simp, ?_, ?_⟩
  · rw [get_append_length]
  · rw [get_append_length]

/-- A READ_WRITE entry established for a key survives every further
operation of a successful run. -/
theorem writtenRW_step {db : DBFun} {o : Op} {s s1 : ClientState} {k : String}
    (hs : WF s) (hw : WrittenRW s k) (h : execOp db o s = .ok s1) :
    WrittenRW s1 k := by
  obtain ⟨i, hidx, hlt, hkey, hty⟩ := hw
  cases o with
  | get k' =>
    simp only [execOp] at h
    cases hg : LsdDriver.get db k' s with
    | error e => rw [hg] at h; exact absurd h (by simp [Except.map])
    | ok out =>
      rw [hg] at h
      cases h
      have hne : k ≠ k' := by
        intro hkk
        subst hkk
        have := (get_ok_state hg).1
        rw [hidx] at this
        simp at this
      rw [(get_ok_state hg).2]
      refine ⟨i, ?_, hlt, hkey, hty⟩
      simpa [hne] using hidx
  | mget ks =>
    simp only [execOp] at h
    cases hg : multiget db ks s with
    | error e => rw [hg] at h; exact absurd h (by simp [Except.map])
    | ok out =>
      rw [hg] at h
      cases h
      have hne : k ∉ ks := by
        intro hkk
        have := (multiget_ok_state hg).1 k hkk
        rw [hidx] at this
        simp at this
      rw [(multiget_ok_state hg).2]
      refine ⟨i, ?_, hlt, hkey, hty⟩
      simpa [hne] using hidx
  | put k' v =>
    cases h
    exact writtenRW_write hs ⟨i, hidx, hlt, hkey, hty⟩
  | rem k' =>
    cases h
    exact writtenRW_write hs ⟨i, hidx, hlt, hkey, hty⟩

/-- A write on a key leaves it accessed (operation level). -/
theorem writesKey_accessed {db : DBFun} {o : Op} {s s1 : ClientState} {k : String}
    (hwo : writesKey k o) (h : execOp db o s = .ok s1) : Accessed s1 k := by
  cases o with
  | get k' => exact absurd hwo (by simp [writesKey])
  | mget ks => exact absurd hwo (by simp [writesKey])
  | put k' v =>
    cases h
    cases hwo
    exact write_accessed .SET k v s
  | rem k' =>
    cases h
    cases hwo
    exact write_accessed .DELETE k "" s

theorem writtenRW_exec {db : DBFun} {ops : List Op} {s s' : ClientState}
    {k : String} (hs : WF s) (hw : WrittenRW s k) (h : exec db ops s = .ok s') :
    WrittenRW s' k := by
  induction ops generalizing s with
  | nil => cases h; exact hw
  | cons o rest ih =>
    simp only [exec] at h
    cases ho : execOp db o s with
    | error e => rw [ho] at h; exact absurd h (by simp)
    | ok s1 =>
      rw [ho] at h
      exact ih (WF_execOp ho hs) (writtenRW_step hs hw ho) h

theorem read_marked_exec {db : DBFun} {ops : List Op} {s s' : ClientState}
    {k : String} (hs : WF s) (hm : s.rwset_index k = some Option.none)
    (h : exec db ops s = .ok s') (hw : ∃ o ∈ ops, writesKey k o) :
    WrittenRW s' k := by
  induction ops generalizing s with
  | nil => simp at hw
  | cons o rest ih =>
    simp only [exec] at h
    cases ho : execOp db o s with
    | error e => rw [ho] at h; exact absurd h (by simp)
    | ok s1 =>
      rw [ho] at h
      by_cases hwo : writesKey k o
      · cases o with
        | get k' => exact absurd hwo (by simp [writesKey])
        | mget ks => exact absurd hwo (by simp [writesKey])
        | put k' v =>
          cases ho
          cases hwo
          exact writtenRW_exec (WF_write .SET k v hs) (write_on_read_marked hm) h
        | rem k' =>
          cases ho
          cases hwo
          exact writtenRW_exec (WF_write .DELETE k "" hs) (write_on_read_marked hm) h
      · have hm1 : s1.rwset_index k = some Option.none := by
          cases o with
          | get k' =>
            simp only [execOp] at ho
            cases hg : LsdDriver.get db k' s with
            | error e => rw [hg] at ho; exact absurd ho (by simp [Except.map])
            | ok out =>
              rw [hg] at ho
              cases ho
              have hne : k ≠ k' := by
                intro hkk
                subst hkk
                have := (get_ok_state hg).1
                rw [hm] at this
                simp at this
              rw [(get_ok_state hg).2]
              simpa [hne] using hm
          | mget ks =>
            simp only [execOp] at ho
            cases hg : multiget db ks s with
            | error e => rw [hg] at ho; exact absurd ho (by simp [Except.map])
            | ok out =>
              rw [hg] at ho
              cases ho
              have hne : k ∉ ks := by
                intro hkk
                have := (multiget_ok_state hg).1 k hkk
                rw [hm] at this
                simp at this
              rw [(multiget_ok_state hg).2]
              simpa [hne] using hm
          | put k' v =>
            cases ho
            have hne : k ≠ k' := fun hh => hwo (by simp [writesKey, hh])
            rw [show LsdDriver.put k' v s = writeS .SET k' v s from rfl,
              writeS_index_other _ _ _ _ _ hne]
            exact hm
          | rem k' =>
            cases ho
            have hne : k ≠ k' := fun hh => hwo (by simp [writesKey, hh])
            rw [show LsdDriver.remove k' s = writeS .DELETE k' "" s from rfl,
              writeS_index_other _ _ _ _ _ hne]
            exact hm
        obtain ⟨o', ho', hwo'⟩ := hw
        rcases List.mem_cons.mp ho' with rfl | ho''
        · exact absurd hwo' hwo
        · exact ih (WF_execOp ho hs) hm1 h ⟨o', ho'', hwo'⟩

/-- In a successful run that reads a key and also writes it, the read
precedes the writes, and the key ends with its single READ_WRITE entry. -/
theorem get_then_write_exec {db : DBFun} {ops : List Op} {s s' : ClientState}
    {k : String} (hs : WF s) (h : exec db ops s = .ok s')
    (hg : Op.get k ∈ ops) (hw : ∃ o ∈ ops, writesKey k o) : WrittenRW s' k := by
  induction ops generalizing s with
  | nil => simp at hg
  | cons o rest ih =>
    simp only [exec] at h
    cases ho : execOp db o s with
    | error e => rw [ho] at h; exact absurd h (by simp)
    | ok s1 =>
      rw [ho] at h
      rcases List.mem_cons.mp hg with rfl | hg'
      · -- the head is the read of k
        simp only [execOp] at ho
        cases hget : LsdDriver.get db k s with
        | error e => rw [hget] at ho; exact absurd ho (by simp [Except.map])
        | ok out =>
          rw [hget] at ho
          cases ho
          have hm1 : out.state.rwset_index k = some Option.none := by
            rw [(get_ok_state hget).2]
            simp
          obtain ⟨o', ho', hwo'⟩ := hw
          rcases List.mem_cons.mp ho' with rfl | ho''
          · exact absurd hwo' (by simp [writesKey])
          · exact read_marked_exec (WF_get hget hs) hm1 h ⟨o', ho'', hwo'⟩
      · by_cases hacc : Accessed s1 k
        · exact absurd h (no_get_after_access hacc hg')
        · obtain ⟨o', ho', hwo'⟩ := hw
          rcases List.mem_cons.mp ho' with rfl | ho''
          · exact absurd (writesKey_accessed hwo' ho) hacc
          · exact ih (WF_execOp ho hs) h hg' ⟨o', ho'', hwo'⟩

/-- A well-formed state with a READ_WRITE entry for `k` carries `k` exactly
once in its key list, and every entry for `k` is the READ_WRITE one. -/
theorem count_of_writtenRW {s' : ClientState} {k : String} (hs : WF s')
    (hw : WrittenRW s' k) :
    (s'.transaction.rwset.map RWEntry.key).count k = 1
    ∧ ∀ e ∈ s'.transaction.rwset, e.key = k → e.etype = EntryType.READ_WRITE := by
  obtain ⟨i, hidx, hlt, hkey, hty⟩ := hw
  have hmem : s'.transaction.rwset.get ⟨i, hlt⟩ ∈ s'.transaction.rwset :=
    List.get_mem _ _ hlt
  constructor
  · exact List.count_eq_one_of_mem hs.nodup
      (hkey ▸ List.mem_map_of_mem RWEntry.key hmem)
  · intro e he hek
    have := List.inj_on_of_nodup_map hs.nodup he hmem (by rw [hek, hkey])
    rw [this]
    exact hty

/-- C3: over any successful sequence of `get`/`multiget`/`put`/`remove`
calls in one transaction, each distinct key occurs at most once in the
read/write set, and a key that is read and then written ends as exactly one
entry of kind READ_WRITE (upgraded in place, never duplicated). -/
theorem c3_single_entry_per_key (db : DBFun) (ops : List Op) (s0 s' : ClientState)
    (hx : exec db ops (beginS s0) = .ok s') :
    (s'.transaction.rwset.map RWEntry.key).Nodup
    ∧ ∀ k, Op.get k ∈ ops → (∃ o ∈ ops, writesKey k o) →
        (s'.transaction.rwset.map RWEntry.key).count k = 1
        ∧ ∀ e ∈ s'.transaction.rwset, e.key = k → e.etype = EntryType.READ_WRITE := by
  have hwf := WF_exec hx (WF_begin s0)
  refine ⟨hwf.nodup, ?_⟩
  intro k hg hw
  exact count_of_writtenRW hwf (get_then_write_exec (WF_begin s0) hx hg hw)

/-- C3 witness: the run `get "a"; put "a" "v"` ends with exactly one entry
for `"a"`, of kind READ_WRITE. -/
theorem c3_single_entry_per_key_witness :
    (exec db0 [Op.get "a", Op.put "a" "v"] (beginS (clientInit "u"))).map
        (fun s' => (s'.transaction.rwset.map RWEntry.key).count "a")
      = .ok 1 := by
  obtain ⟨s', hs'⟩ : ∃ s',
      exec db0 [Op.get "a", Op.put "a" "v"] (beginS (clientInit "u")) = .ok s' :=
    ⟨_, rfl⟩
  have h2 := (c3_single_entry_per_key db0 [Op.get "a", Op.put "a" "v"]
    (clientInit "u") s' hs').2 "a" (by simp) ⟨Op.put "a" "v", by simp, rfl⟩
  rw [hs', Except.map, h2.1]

/-! ### C4, C5, C6: single-access assertion, read recording, write-write -/

/-- C4: a `get` on a key already accessed this transaction — including one
previously written by `put`/`remove` — always fails the precondition
assertion, as does a `multiget` containing such a key; and every read or
write leaves its key marked as accessed. -/
theorem c4_duplicate_access_asserts (db : DBFun) (s : ClientState) (k : String) :
    (Accessed s k →
      get db k s = .error ()
      ∧ ∀ klist, k ∈ klist → multiget db klist s = .error ())
    ∧ (∀ out, get db k s = .ok out → Accessed out.state k)
    ∧ (∀ wt v, Accessed (writeS wt k v s) k)
    ∧ (∀ klist out, k ∈ klist → multiget db klist s = .ok out →
        Accessed out.state k) := by
  refine ⟨?_, ?_, ?_, ?_⟩
  · intro ha
    constructor
    · unfold get
      rw [if_pos (by simpa [Accessed] using ha)]
    · intro klist hk
      unfold multiget
      rw [if_pos (List.any_eq_true.mpr ⟨k, hk, by simpa [Accessed] using ha⟩)]
  · intro out h
    exact get_accessed h
  · intro wt v
    exact write_accessed wt k v s
  · intro klist out hk h
    exact multiget_accessed h k hk

/-- C4 witness: after a `put`, both a `get` of the same key and a `multiget`
containing it fail. -/
theorem c4_duplicate_access_asserts_witness :
    get db0 "k" (put "k" "v" (beginS (clientInit "u"))) = .error ()
    ∧ multiget db0 ["x", "k"] (put "k" "v" (beginS (clientInit "u"))) = .error () := by
  have h := (c4_duplicate_access_asserts db0 (put "k" "v" (beginS (clientInit "u")))
    "k").1 ((c4_duplicate_access_asserts db0 (beginS (clientInit "u")) "k").2.2.1
      WriteKind.SET "v")
  exact ⟨h.1, h.2 ["x", "k"] (by simp)⟩

/-- C5 counterexample: after `begin(); get("k")` the transaction's read/write
set is empty — no READ entry is recorded for the key, so the pure read does
not appear in the serialized commit payload (the active code only marks the
key in the client's private `_rwset_index`). -/
theorem c5_counterexample :
    (get db0 "k" (beginS (clientInit "u"))).map
      (fun o => o.state.transaction.rwset) = .ok [] := rfl

/-- C5 amended: `get` and `multiget` record each key only in the private
index (as an accessed marker holding `None`), leave `transaction.rwset`
unchanged, and return the concrete `(existed, value)` pair from the store
reply. -/
theorem c5_reads_only_marked (db : DBFun) (s : ClientState) (k : String)
    (klist : List String) :
    (∀ out, get db k s = .ok out →
      out.state.transaction.rwset = s.transaction.rwset
      ∧ out.state.rwset_index k = some Option.none
      ∧ out.existed = (db out.request k).isSome
      ∧ out.value = db out.request k)
    ∧ (∀ out, multiget db klist s = .ok out →
      out.state.transaction.rwset = s.transaction.rwset
      ∧ (∀ k' ∈ klist, out.state.rwset_index k' = some Option.none)
      ∧ out.result = klist.map
          (fun k' => (k', (db out.request k').isSome, db out.request k'))) := by
  constructor
  · intro out h
    unfold get at h
    split at h
    · exact absurd h (by simp)
    · cases h
      exact ⟨rfl, by simp, rfl, rfl⟩
  · intro out h
    unfold multiget at h
    split at h
    · exact absurd h (by simp)
    · cases h
      refine ⟨rfl, ?_, rfl⟩
      intro k' hk'
      simp [hk']

/-- C5 amended witness: a concrete `get` marks the key and records nothing. -/
theorem c5_reads_only_marked_witness :
    (get db0 "k" (beginS (clientInit "u"))).map
      (fun o => (o.state.transaction.rwset, o.state.rwset_index "k"))
      = .ok ([], some Option.none) := by
  obtain ⟨o, ho⟩ : ∃ o, get db0 "k" (beginS (clientInit "u")) = .ok o := ⟨_, rfl⟩
  have h := (c5_reads_only_marked db0 (beginS (clientInit "u")) "k" []).1 o ho
  rw [ho, Except.map, h.1, h.2.1]
  rfl

/-- C6 counterexample: a second `put` on an already-written key does not
fail — `_write` is total — and instead flips the single existing entry to
READ_WRITE in place with the new payload. -/
theorem c6_counterexample :
    (put "k" "b" (put "k" "a" (beginS (clientInit "u")))).transaction.rwset
      = [{ key := "k", etype := EntryType.READ_WRITE, w_type := WriteKind.SET,
           w_is_future := false, w_value := "b" }] := rfl

/-- C6 amended: `_write` never rejects a duplicate write; a second
`put`/`remove` on a written key is accepted, overwrites the entry in place
(upgrading its kind to READ_WRITE, keeping the latest payload) and adds no
second entry — the single-write discipline is an assumed caller contract,
not enforced. -/
theorem c6_second_write_overwrites (s : ClientState) (k : String)
    (wt wt' : WriteKind) (v v' : String) (h : s.rwset_index k = Option.none) :
    (writeS wt k v s).transaction.rwset
      = s.transaction.rwset ++
        [{ key := k, etype := EntryType.WRITE, w_type := wt,
           w_is_future := false, w_value := v }]
    ∧ (writeS wt' k v' (writeS wt k v s)).transaction.rwset
      = s.transaction.rwset ++
        [{ key := k, etype := EntryType.READ_WRITE, w_type := wt',
           w_is_future := false, w_value := v' }]
    ∧ (writeS wt' k v' (writeS wt k v s)).transaction.rwset.length
      = (writeS wt k v s).transaction.rwset.length := by
  have h1 : (writeS wt k v s).transaction.rwset
      = s.transaction.rwset ++
        [{ key := k, etype := EntryType.WRITE, w_type := wt,
           w_is_future := false, w_value := v }] := by
    unfold writeS
    simp only [h]
  have h2 : (writeS wt k v s).rwset_index k
      = some (some s.transaction.rwset.length) := by
    unfold writeS
    simp only [h]
    simp
  have h3 : (writeS wt' k v' (writeS wt k v s)).transaction.rwset
      = s.transaction.rwset ++
        [{ key := k, etype := EntryType.READ_WRITE, w_type := wt',
           w_is_future := false, w_value := v' }] := by
    conv_lhs => rw [writeS]
    simp only [h2]
    rw [h1, set_append_length]
  refine ⟨h1, h3, ?_⟩
  rw [h1, h3]
  simp

/-- C6 amended witness: the concrete double write. -/
theorem c6_second_write_overwrites_witness :
    (writeS WriteKind.SET "k" "b"
        (writeS WriteKind.SET "k" "a" (beginS (clientInit "u")))).transaction.rwset
      = [{ key := "k", etype := EntryType.READ_WRITE, w_type := WriteKind.SET,
           w_is_future := false, w_value := "b" }] := by
  simpa using (c6_second_write_overwrites (beginS (clientInit "u")) "k"
    WriteKind.SET WriteKind.SET "a" "b" rfl).2.1

/-! ### C7: the EXISTS memoization slip (commented-out future ops) -/

/-- C7 evaluation at the failing input: durably resolving the EXISTS node
(index 1, over a resolved READ of an absent key) yields the string
`"False"` and caches it; resolving the same handle again returns the
boolean `True` — `exists_op`'s memo branch returns `f.unary_op.resolved`
(the flag) instead of `f.unary_op.value`, unlike every sibling op. -/
theorem c7_exists_memo_returns_flag :
    resolve flt0 env0 false 3 c7Fset 1 = .ok (.vstr "False", c7FsetAfter)
    ∧ resolve flt0 env0 false 3 c7FsetAfter 1 = .ok (.vbool true, c7FsetAfter) :=
  ⟨rfl, rfl⟩

/-! ### C10: abort bookkeeping frame -/

/-- C10: `abortTransaction(id)` on a running id bumps that transaction
type's abort counter and changes nothing else — in particular the id stays
in `running`, so the abort may be repeated and a later
`stopTransaction(id, measure=True)` still succeeds, removes the id, and
counts the same transaction as executed in the counters and the latency
histogram. -/
theorem c10_abort_keeps_running (r : Results) (id : Nat) (txn : TxnType)
    (st now now2 : Nat) (h : r.running id = some (txn, st)) :
    ((startTransaction now2 txn r).2.running (startTransaction now2 txn r).1
      = some (txn, now2))
    ∧ ∃ r', abortTransaction id r = .ok r'
      ∧ r'.txn_aborts txn = r.txn_aborts txn + 1
      ∧ (∀ t, t ≠ txn → r'.txn_aborts t = r.txn_aborts t)
      ∧ r'.running = r.running
      ∧ r'.txn_id = r.txn_id
      ∧ r'.txn_counters = r.txn_counters
      ∧ r'.txn_times = r.txn_times
      ∧ r'.start = r.start
      ∧ r'.stop = r.stop
      ∧ (∃ r2, abortTransaction id r' = .ok r2)
      ∧ ∃ r2, stopTransaction id true now r' = .ok r2
          ∧ r2.running id = Option.none
          ∧ (∀ j, j ≠ id → r2.running j = r.running j)
          ∧ r2.txn_counters txn = r.txn_counters txn + 1
          ∧ r2.txn_times txn = r.txn_times txn ++ [(now - st) * 1000000]
          ∧ r2.txn_aborts txn = r.txn_aborts txn + 1 := by
  refine ⟨by simp [startTransaction],
    { r with txn_aborts := fun t =>
        if t = txn then r.txn_aborts txn + 1 else r.txn_aborts t },
    by unfold abortTransaction; rw [h],
    by simp, ?_, rfl, rfl, rfl, rfl, rfl, rfl, ?_, ?_⟩
  · intro t ht
    simp [ht]
  · exact ⟨_, by
      unfold abortTransaction
      rw [show ({ r with txn_aborts := fun t =>
        if t = txn then r.txn_aborts txn + 1 else r.txn_aborts t
          : Results }).running id = some (txn, st) from h]⟩
  · refine ⟨_, by
      unfold stopTransaction
      rw [show ({ r with txn_aborts := fun t =>
        if t = txn then r.txn_aborts txn + 1 else r.txn_aborts t
          : Results }).running id = some (txn, st) from h], ?_, ?_, ?_, ?_, ?_⟩
    · simp
    · intro j hj
      simp [hj]
    · simp
    · simp
    · simp

/-- C10 witness: start, abort, then stop a concrete PAYMENT transaction. -/
theorem c10_abort_keeps_running_witness :
    ((abortTransaction 1 (startTransaction 5 TxnType.PAYMENT initResults).2).map
      (fun r' => (r'.txn_aborts TxnType.PAYMENT, r'.txn_id, r'.running 1)))
      = .ok (1, 1, some (TxnType.PAYMENT, 5))
    ∧ ((abortTransaction 1 (startTransaction 5 TxnType.PAYMENT initResults).2).bind
        (fun r' => stopTransaction 1 true 9 r')).map
          (fun r2 => (r2.running 1, r2.txn_counters TxnType.PAYMENT,
            r2.txn_times TxnType.PAYMENT))
      = .ok (Option.none, 1, [4000000]) := by
  obtain ⟨hs, r', h1, h2, _, hrun, hid, _, _, _, _, _, r2, hstop, hr2a, _, hr2c, hr2t, _⟩ :=
    c10_abort_keeps_running (startTransaction 5 TxnType.PAYMENT initResults).2 1
      TxnType.PAYMENT 5 9 0 (by rfl)
  constructor
  · rw [h1, Except.map, h2, hid, hrun]
    rfl
  · rw [h1]
    show (stopTransaction 1 true 9 r').map _ = _
    rw [hstop, Except.map, hr2a, hr2c, hr2t]
    rfl

/-! ### C9: injectivity of the key-encoding family -/

/-- Splitting a list on a separator absent from both prefixes is unique. -/
theorem splitSep {α : Type} [DecidableEq α] (sep : α) :
    ∀ (a c b d : List α), sep ∉ a → sep ∉ c →
      a ++ sep :: b = c ++ sep :: d → a = c ∧ b = d := by
  intro a
  induction a with
  | nil =>
    intro c b d _ hc h
    cases c with
    | nil => simpa using h
    | cons y cs =>
      simp only [List.nil_append, List.cons_append, List.cons.injEq] at h
      exact absurd (h.1 ▸ List.mem_cons_self y cs) hc
  | cons x as ih =>
    intro c b d ha hc h
    cases c with
    | nil =>
      simp only [List.cons_append, List.nil_append, List.cons.injEq] at h
      exact absurd (h.1 ▸ List.mem_cons_self x as) ha
    | cons y cs =>
      simp only [List.cons_append, List.cons.injEq] at h
      obtain ⟨hxy, hrest⟩ := h
      obtain ⟨h1, h2⟩ := ih cs b d (fun hm => ha (List.mem_cons_of_mem x hm))
        (fun hm => hc (List.mem_cons_of_mem y hm)) hrest
      exact ⟨by rw [hxy, h1], h2⟩

theorem not_mem_append_cons {a c : Char} {l1 l2 : List Char}
    (h1 : a ∉ l1) (h2 : a ≠ c) (h3 : a ∉ l2) : a ∉ l1 ++ c :: l2 := by
  intro h
  rcases List.mem_append.mp h with h | h
  · exact h1 h
  · rcases List.mem_cons.mp h with h | h
    · exact h2 h
    · exact h3 h

/-- An encoded key is its table tag, `-`, then the body. -/
theorem encode_data (k : LogicalKey) :
    (encodeKey k).data = tagOf k ++ '-' :: bodyOf k := by
  cases k <;>
    simp [encodeKey, w_key, d_key, c_key, c_index_key, h_key, no_key, no_index_key,
      o_key, o_index_key, ol_key, i_key, s_key, tagOf, bodyOf, String.data_append]

theorem tag_no_dash (k : LogicalKey) : '-' ∉ tagOf k := by
  cases k <;> simp only [tagOf] <;> decide

/-- C9: the key-encoding family is injective — two logical keys whose
rendered fields contain neither `-` nor `_` encode to the same store key
only if they are the same (table, id-fields, subfield) tuple. -/
theorem c9_key_encoding_injective (k1 k2 : LogicalKey)
    (h1 : CleanKey k1) (h2 : CleanKey k2) (he : encodeKey k1 = encodeKey k2) :
    k1 = k2 := by
  have hd : (encodeKey k1).data = (encodeKey k2).data := by rw [he]
  rw [encode_data, encode_data] at hd
  obtain ⟨htag, hbody⟩ := splitSep '-' (tagOf k1) (tagOf k2) (bodyOf k1) (bodyOf k2)
    (tag_no_dash k1) (tag_no_dash k2) hd
  cases k1 <;> cases k2 <;> first
    | · simp only [tagOf] at htag
        exact absurd htag (by decide)
    | · simp only [bodyOf, List.append_assoc, List.cons_append] at hbody
        obtain ⟨ha1, hf1⟩ := splitSep '-' _ _ _ _ h1.1.1 h2.1.1 hbody
        rw [String.ext ha1, String.ext hf1]
    | · simp only [bodyOf, List.append_assoc, List.cons_append] at hbody
        obtain ⟨ha1, hrest⟩ := splitSep '_' _ _ _ _ h1.1.2 h2.1.2 hbody
        obtain ⟨ha2, hf1⟩ := splitSep '-' _ _ _ _ h1.2.1.1 h2.2.1.1 hrest
        rw [String.ext ha1, String.ext ha2, String.ext hf1]
    | · simp only [bodyOf, List.append_assoc, List.cons_append] at hbody
        obtain ⟨ha1, hrest⟩ := splitSep '_' _ _ _ _ h1.1.2 h2.1.2 hbody
        obtain ⟨ha2, hf1⟩ := splitSep '_' _ _ _ _ h1.2.1.2 h2.2.1.2 hrest
        rw [String.ext ha1, String.ext ha2, String.ext hf1]
    | · simp only [bodyOf, List.append_assoc, List.cons_append] at hbody
        obtain ⟨ha1, hrest1⟩ := splitSep '_' _ _ _ _ h1.1.2 h2.1.2 hbody
        obtain ⟨ha2, hrest2⟩ := splitSep '_' _ _ _ _ h1.2.1.2 h2.2.1.2 hrest1
        obtain ⟨ha3, hf1⟩ := splitSep '-' _ _ _ _ h1.2.2.1.1 h2.2.2.1.1 hrest2
        rw [String.ext ha1, String.ext ha2, String.ext ha3, String.ext hf1]
    | · simp only [bodyOf, List.append_assoc, List.cons_append] at hbody
        obtain ⟨ha1, hrest1⟩ := splitSep '_' _ _ _ _ h1.1.2 h2.1.2 hbody
        obtain ⟨ha2, hrest2⟩ := splitSep '_' _ _ _ _ h1.2.1.2 h2.2.1.2 hrest1
        obtain ⟨ha3, hf1⟩ := splitSep '_' _ _ _ _ h1.2.2.1.2 h2.2.2.1.2 hrest2
        rw [String.ext ha1, String.ext ha2, String.ext ha3, String.ext hf1]
    | · simp only [bodyOf, List.append_assoc, List.cons_append] at hbody
        obtain ⟨ha1, hrest1⟩ := splitSep '_' _ _ _ _ h1.1.2 h2.1.2 hbody
        obtain ⟨ha2, hrest2⟩ := splitSep '_' _ _ _ _ h1.2.1.2 h2.2.1.2 hrest1
        obtain ⟨ha3, hrest3⟩ := splitSep '_' _ _ _ _ h1.2.2.1.2 h2.2.2.1.2 hrest2
        obtain ⟨ha4, hf1⟩ := splitSep '-' _ _ _ _ h1.2.2.2.1.1 h2.2.2.2.1.1 hrest3
        rw [String.ext ha1, String.ext ha2, String.ext ha3, String.ext ha4,
          String.ext hf1]
    | · simp only [bodyOf, List.append_assoc, List.cons_append] at hbody
        obtain ⟨ha1, hf1⟩ := splitSep '_' _ _ _ _ h1.1.2 h2.1.2 hbody
        rw [String.ext ha1, String.ext hf1]

/-- C9 witness: the hypotheses are satisfiable — concrete delimiter-free
fields, with the theorem applied at them. -/
theorem c9_key_encoding_injective_witness :
    LogicalKey.district "3" "7" "ytd" = LogicalKey.district "3" "7" "ytd" :=
  c9_key_encoding_injective (.district "3" "7" "ytd") (.district "3" "7" "ytd")
    ⟨⟨by decide, by decide⟩, ⟨by decide, by decide⟩, ⟨by decide, by decide⟩⟩
    ⟨⟨by decide, by decide⟩, ⟨by decide, by decide⟩, ⟨by decide, by decide⟩⟩
    rfl

end LsdDriver
